import Mathlib

/-!
Shallow embedding of the acquisition-and-normalization core of the
`stocks` crate (src/stocks/src/main.rs): request construction
(`AlphaVantageRequest::new`, `build_request`), response deserialization
(`AlphaVantageResponse` with its serde rename and flatten attributes,
as executed by ureq 2.x `Response::into_json`), and normalization
(`parse_response`).

Modelling conventions:
- Rust `HashMap` values are embedded as association lists; claims about
  iteration-order independence are quantified over all list orders.
- A Rust panic (`unwrap` on a failed parse) is embedded as `none`
  propagating out of the whole computation, so `parse_response` becomes
  `AlphaVantageResponse → Option (List SeriesEntry)`.
- `f32` values are embedded as exact rationals produced by a decimal
  parser following Rust's `f32::from_str` grammar for finite decimal
  literals (optional sign, digits around an optional point, optional
  exponent); the special literals inf/infinity/nan and rounding to
  binary are outside the model, and no arithmetic is ever performed on
  the parsed values, so exact rationals are a faithful carrier.
- `u64` parsing follows `u64::from_str`: optional leading `+`, one or
  more ASCII digits, value below 2^64.
- `chrono::NaiveDateTime::parse_from_str` with format
  `"%Y-%m-%d %H:%M:%S"` is embedded as a scanner that reads up to 4
  digits of year, literal `-`, up to 2 digits of month, literal `-`,
  up to 2 digits of day, optional whitespace (chrono's `Space` item),
  up to 2 digits each of hour/minute/second separated by literal `:`,
  requires the whole input consumed, and then validates the calendar
  fields (leap years included). Signed years and leap-second `60` are
  outside the model; no claim exercises them.
-/

namespace Stocks

/-- Calendar date-time with second precision, the embedding of
`chrono::NaiveDateTime` as produced by the format `%Y-%m-%d %H:%M:%S`. -/
structure DateTime where
  year : Nat
  month : Nat
  day : Nat
  hour : Nat
  minute : Nat
  second : Nat
deriving DecidableEq, Repr

/-- Packs a date-time into a single natural number preserving
chronological order for calendar-valid field values
(month ≤ 12 < 16, day ≤ 31 < 32, hour ≤ 23 < 32, minute/second ≤ 59 < 64);
every `DateTime` built by `parseDateTime` satisfies these bounds, so
`key`-comparison is exactly chrono's `NaiveDateTime::cmp` on the values
the program ever compares. -/
def DateTime.key (d : DateTime) : Nat :=
  ((((d.year * 16 + d.month) * 32 + d.day) * 32 + d.hour) * 64 + d.minute) * 64 + d.second

/-- Boolean chronological order on parsed date-times, the comparator
`a.date.cmp(&b.date)` used by `parse_response`'s sort. -/
def DateTime.le (a b : DateTime) : Bool :=
  decide (a.key ≤ b.key)

/-- Greedy digit scanner: consumes at most `w` leading ASCII digits,
returning the accumulated value, the number of digits consumed and the
rest of the input. Embeds chrono's numeric-item scanning (minimum one
digit, maximum width `w`, checked by the caller). -/
def scanNumAcc : Nat → List Char → Nat → Nat → Nat × Nat × List Char
  | 0, cs, acc, n => (acc, n, cs)
  | _ + 1, [], acc, n => (acc, n, [])
  | w + 1, c :: rest, acc, n =>
    if c.isDigit then scanNumAcc w rest (acc * 10 + (c.toNat - 48)) (n + 1)
    else (acc, n, c :: rest)

/-- Reads between 1 and `w` digits, failing on zero digits. -/
def number (w : Nat) (cs : List Char) : Option (Nat × List Char) :=
  let r := scanNumAcc w cs 0 0
  if r.2.1 = 0 then none else some (r.1, r.2.2)

/-- Consumes one expected literal character. -/
def lit (c : Char) : List Char → Option (List Char)
  | [] => none
  | c2 :: rest => if c2 = c then some rest else none

/-- True for leap years of the proleptic Gregorian calendar. -/
def isLeap (y : Nat) : Bool :=
  (y % 4 == 0 && y % 100 != 0) || y % 400 == 0

/-- Number of days of month `m` of year `y`. -/
def daysInMonth (y m : Nat) : Nat :=
  if m = 2 then (if isLeap y then 29 else 28)
  else if m = 4 || m = 6 || m = 9 || m = 11 then 30
  else 31

/-- Embedding of
`NaiveDateTime::parse_from_str(key, "%Y-%m-%d %H:%M:%S")`:
scan the six numeric fields with the appropriate widths and literal
separators, require the whole string consumed, then validate the
calendar fields. Returns `none` where chrono returns `Err` (which the
Rust code turns into a panic via `unwrap`). -/
def parseDateTime (s : String) : Option DateTime := do
  let cs := s.data
  let (y, cs) ← number 4 cs
  let cs ← lit '-' cs
  let (mo, cs) ← number 2 cs
  let cs ← lit '-' cs
  let (d, cs) ← number 2 cs
  let cs := cs.dropWhile (·.isWhitespace)
  let (h, cs) ← number 2 cs
  let cs ← lit ':' cs
  let (mi, cs) ← number 2 cs
  let cs ← lit ':' cs
  let (sec, cs) ← number 2 cs
  if cs.isEmpty && 1 ≤ mo && mo ≤ 12 && 1 ≤ d && d ≤ daysInMonth y mo
      && h ≤ 23 && mi ≤ 59 && sec ≤ 59 then
    some ⟨y, mo, d, h, mi, sec⟩
  else
    none

/-- Greedy scan of all leading ASCII digits, as digit values. -/
def scanDigits : List Char → List Nat × List Char
  | [] => ([], [])
  | c :: rest =>
    if c.isDigit then
      let r := scanDigits rest
      ((c.toNat - 48) :: r.1, r.2)
    else ([], c :: rest)

/-- Value of a big-endian digit list. -/
def natFromDigits (l : List Nat) : Nat :=
  l.foldl (fun a d => a * 10 + d) 0

/-- Assembles the rational value of a finite decimal literal with
integer digits `ip`, fraction digits `fp` and decimal exponent `e`. -/
def mkDecimal (neg : Bool) (ip fp : List Nat) (e : Int) : Rat :=
  let m : Int := (natFromDigits (ip ++ fp) : Nat)
  let m := if neg then -m else m
  let num : Int := if 0 ≤ e then m * 10 ^ e.toNat else m
  let den : Nat := if 0 ≤ e then 10 ^ fp.length else 10 ^ fp.length * 10 ^ (-e).toNat
  mkRat num den

/-- Embedding of `str::parse::<f32>` (`f32::from_str`) on finite decimal
literals: optional sign, digits with an optional point (at least one
digit overall), optional exponent marker `e`/`E` with optional sign and
at least one digit, whole string consumed. The parsed value is kept as
an exact rational (see the module comment). -/
def parseF32 (s : String) : Option Rat :=
  let cs := s.data
  let (neg, cs1) :=
    match cs with
    | '-' :: r => (true, r)
    | '+' :: r => (false, r)
    | _ => (false, cs)
  let (ip, cs2) := scanDigits cs1
  let (fp, cs3) :=
    match cs2 with
    | '.' :: r => scanDigits r
    | _ => ([], cs2)
  if ip.isEmpty && fp.isEmpty then none
  else
    match cs3 with
    | [] => some (mkDecimal neg ip fp 0)
    | c :: r =>
      if c = 'e' || c = 'E' then
        let (eneg, r1) :=
          match r with
          | '-' :: r2 => (true, r2)
          | '+' :: r2 => (false, r2)
          | _ => (false, r)
        let (eds, r2) := scanDigits r1
        if eds.isEmpty || !r2.isEmpty then none
        else
          let ev : Int := (natFromDigits eds : Nat)
          some (mkDecimal neg ip fp (if eneg then -ev else ev))
      else none

/-- Embedding of `str::parse::<u64>` (`u64::from_str`): optional leading
`+`, one or more ASCII digits, value below 2^64. -/
def parseU64 (s : String) : Option Nat :=
  let cs0 := s.data
  let cs1 :=
    match cs0 with
    | '+' :: r => r
    | _ => cs0
  let (ds, rest) := scanDigits cs1
  if ds.isEmpty || !rest.isEmpty then none
  else
    let v := natFromDigits ds
    if v < 2 ^ 64 then some v else none

/-- Embedding of `struct SeriesEntry` (src/stocks/src/main.rs). The
field `open` is quoted because `open` is a Lean keyword. -/
structure SeriesEntry where
  date : DateTime
  «open» : Rat
  high : Rat
  low : Rat
  close : Rat
  volume : Nat
deriving DecidableEq, Repr

/-- Embedding of `impl Default for SeriesEntry`: zero prices and volume;
`NaiveDateTime::default()` is the Unix epoch 1970-01-01 00:00:00. -/
def SeriesEntry.default : SeriesEntry :=
  { date := ⟨1970, 1, 1, 0, 0, 0⟩
    «open» := 0
    high := 0
    low := 0
    close := 0
    volume := 0 }

/-- Embedding of `struct TimeSeriesHelper`: the `#[serde(flatten)]`
`HashMap<String, HashMap<String, String>>`, as an association list
whose order stands for one iteration order of the hash map. -/
structure TimeSeriesHelper where
  time_series : List (String × List (String × String))
deriving DecidableEq, Repr

/-- Embedding of `struct AlphaVantageResponse`: one field renamed from
the fixed JSON key `"Time Series (60min)"`. -/
structure AlphaVantageResponse where
  time_series_helper : TimeSeriesHelper
deriving DecidableEq, Repr

/-- One iteration of the inner `for (key, data) in value` loop of
`parse_response`: the `match key.as_str()` dispatch. A failed
`data.parse().unwrap()` is a panic, embedded as `none`; an
unrecognized label falls to the `_ => {}` arm and leaves the entry
unchanged. -/
def applyField (e : SeriesEntry) (kv : String × String) : Option SeriesEntry :=
  if kv.1 = "1. open" then (parseF32 kv.2).map (fun v => { e with «open» := v })
  else if kv.1 = "2. high" then (parseF32 kv.2).map (fun v => { e with high := v })
  else if kv.1 = "3. low" then (parseF32 kv.2).map (fun v => { e with low := v })
  else if kv.1 = "4. close" then (parseF32 kv.2).map (fun v => { e with close := v })
  else if kv.1 = "5. volume" then (parseU64 kv.2).map (fun v => { e with volume := v })
  else some e

/-- The inner field loop of `parse_response`, run over the whole field
map of one raw entry, starting from `e`. -/
def parseFields : List (String × String) → SeriesEntry → Option SeriesEntry
  | [], e => some e
  | kv :: rest, e => do
    let e1 ← applyField e kv
    parseFields rest e1

/-- One iteration of the outer `for (key, value)` loop of
`parse_response`: parse the timestamp key (`unwrap` panic as `none`),
then fold the field map over a default entry. -/
def parseEntry (p : String × List (String × String)) : Option SeriesEntry :=
  match parseDateTime p.1 with
  | none => none
  | some d => parseFields p.2 { SeriesEntry.default with date := d }

/-- The outer loop of `parse_response` over all raw entries, collecting
one `SeriesEntry` per timestamp key; the first panic aborts everything. -/
def parseAll : List (String × List (String × String)) → Option (List SeriesEntry)
  | [] => some []
  | p :: rest => do
    let e ← parseEntry p
    let l ← parseAll rest
    pure (e :: l)

/-- Comparator of the final `entities.sort_by(|a, b| a.date.cmp(&b.date))`:
`a` may stay before `b` iff `cmp` is not `Greater`. -/
def entryLe (a b : SeriesEntry) : Prop :=
  a.date.le b.date = true

instance : DecidableRel entryLe := fun a b => by
  unfold entryLe; infer_instance

instance : IsTotal SeriesEntry entryLe :=
  ⟨fun a b => by
    simp only [entryLe, DateTime.le, decide_eq_true_eq]
    exact Nat.le_total a.date.key b.date.key⟩

instance : IsTrans SeriesEntry entryLe :=
  ⟨fun a b c h1 h2 => by
    simp only [entryLe, DateTime.le, decide_eq_true_eq] at h1 h2 ⊢
    exact Nat.le_trans h1 h2⟩

/-- Embedding of `fn parse_response`: loop over the raw map producing
one entry per key, then stable-sort by date. Rust's `slice::sort_by`
is a stable sort, and all stable sorts under one comparator agree on
their output, so the stable `List.insertionSort` is its embedding; a
panic anywhere in the loop is `none`. -/
def parse_response (res : AlphaVantageResponse) : Option (List SeriesEntry) :=
  (parseAll res.time_series_helper.time_series).map
    (fun entities => entities.insertionSort entryLe)

/-- Embedding of `struct AlphaVantageRequest`. -/
structure AlphaVantageRequest where
  function : String
  symbol : String
  interval : String
deriving DecidableEq, Repr

/-- Embedding of `AlphaVantageRequest::new`: plain field assembly,
no validation of any kind. -/
def AlphaVantageRequest.new (function symbol interval : String) : AlphaVantageRequest :=
  { function := function, symbol := symbol, interval := interval }

/-- Embedding of `fn build_request`: `to_string` on `&str` is the
identity on the embedded strings. -/
def build_request (function symbol interval : String) : AlphaVantageRequest :=
  AlphaVantageRequest.new function symbol interval

/-- True on the five labels recognized by `parse_response`'s match. -/
def isRecognized (l : String) : Bool :=
  l == "1. open" || l == "2. high" || l == "3. low" || l == "4. close" || l == "5. volume"

/-- Whether the value text of label `l` survives the parse that
`parse_response` applies to it: the four price labels go through the
`f32` parser, the volume label through the `u64` parser, and any other
label is never parsed. -/
def fieldParseOk (l v : String) : Bool :=
  if l = "1. open" then (parseF32 v).isSome
  else if l = "2. high" then (parseF32 v).isSome
  else if l = "3. low" then (parseF32 v).isSome
  else if l = "4. close" then (parseF32 v).isSome
  else if l = "5. volume" then (parseU64 v).isSome
  else true

/-- JSON values, the target of `serde_json`'s parser; objects keep their
textual entry order. -/
inductive Json where
  | str (s : String)
  | num (n : Int)
  | bool (b : Bool)
  | null
  | arr (elems : List Json)
  | obj (entries : List (String × Json))

/-- serde deserialization of one `HashMap<String, String>` value: an
object all of whose values are strings; anything else is an error. -/
def decodePairs : List (String × Json) → Option (List (String × String))
  | [] => some []
  | (k, .str s) :: rest => (decodePairs rest).map (fun l => (k, s) :: l)
  | _ => none

/-- serde deserialization of `HashMap<String, String>`. -/
def decodeStringMap : Json → Option (List (String × String))
  | .obj kvs => decodePairs kvs
  | _ => none

/-- serde deserialization of the entries captured by the
`#[serde(flatten)]` map of `TimeSeriesHelper`: every entry's value must
itself be a string-to-string object. -/
def decodeHelperEntries : List (String × Json) → Option (List (String × List (String × String)))
  | [] => some []
  | (k, v) :: rest =>
    match decodeStringMap v, decodeHelperEntries rest with
    | some m, some l => some ((k, m) :: l)
    | _, _ => none

/-- serde deserialization of `TimeSeriesHelper`: with a single flattened
map field, any object deserializes by collecting all its entries. -/
def decodeHelper : Json → Option TimeSeriesHelper
  | .obj kvs => (decodeHelperEntries kvs).map (fun l => ⟨l⟩)
  | _ => none

/-- serde deserialization of `struct AlphaVantageResponse`: the derive
looks up the field renamed to the fixed text `"Time Series (60min)"`,
errors when it is absent or duplicated, ignores unknown top-level keys
(serde's default), and deserializes the field's value as
`TimeSeriesHelper`. -/
def decodeAV (j : Json) : Option AlphaVantageResponse :=
  match j with
  | .obj kvs =>
    match kvs.filter (fun kv => kv.1 == "Time Series (60min)") with
    | [kv] => (decodeHelper kv.2).map (fun h => ⟨h⟩)
    | _ => none
  | _ => none

/-- The `ureq::Error` of a failed `req.call()`: a transport-level
failure or a non-success HTTP status (ureq 2.x returns `Err` on both). -/
inductive UreqError where
  | transport
  | status (code : Nat)
deriving DecidableEq, Repr

/-- The `std::io::Error` produced by `Response::into_json`: either a
genuine body-read failure, or `InvalidData` wrapping a serde error. -/
inductive IoError where
  | readFailure
  | invalidData
deriving DecidableEq, Repr

/-- Embedding of `enum AlphaVantageError`, one constructor per variant;
the `#[from]` source payloads are kept where the model distinguishes
them. `IssueDeserialisationError` holds a `serde_json::Error`, elided
here because no value of it is ever constructed by `fetch`. -/
inductive AlphaVantageError where
  | RequestFailed (e : UreqError)
  | FailedResponseToString (e : IoError)
  | IssueDeserialisationError
deriving DecidableEq, Repr

/-- True exactly on the `IssueDeserialisationError` variant. -/
def AlphaVantageError.isDeser : AlphaVantageError → Bool
  | .IssueDeserialisationError => true
  | _ => false

/-- Outcome of reading the response body after a successful call:
`failure` when the bytes cannot be read, otherwise `ok (some j)` when
the bytes are the JSON value `j` and `ok none` when they are not valid
JSON. -/
inductive BodyRead where
  | failure
  | ok (parsed : Option Json)

/-- Embedding of ureq 2.x `Response::into_json::<AlphaVantageResponse>`:
it reads the body and runs `serde_json` on it, returning
`io::Result<T>`; a read failure keeps its own `io::Error`, and both a
JSON syntax error and a shape mismatch are wrapped into an `io::Error`
of kind `InvalidData`. -/
def into_json (b : BodyRead) : Except IoError AlphaVantageResponse :=
  match b with
  | .failure => .error .readFailure
  | .ok none => .error .invalidData
  | .ok (some j) =>
    match decodeAV j with
    | none => .error .invalidData
    | some r => .ok r

/-- Embedding of `struct AlphaVantageClient`. -/
structure AlphaVantageClient where
  api_key : String
deriving DecidableEq, Repr

/-- Embedding of `AlphaVantageClient::new`. -/
def AlphaVantageClient.new (key : String) : AlphaVantageClient :=
  { api_key := key }

/-- Embedding of `AlphaVantageClient::fetch`. The network exchange is
an input of the model: `outcome` is what `req.call()` produced (its
`Err` carries the `ureq::Error`, its `Ok` the readable-or-not body).
The two `?` operators of the Rust body apply the `#[from]` conversions
of `AlphaVantageError`: `ureq::Error → RequestFailed` and
`std::io::Error → FailedResponseToString`. -/
def AlphaVantageClient.fetch (_client : AlphaVantageClient) (_av_req : AlphaVantageRequest)
    (outcome : Except UreqError BodyRead) : Except AlphaVantageError AlphaVantageResponse :=
  match outcome with
  | .error e => .error (.RequestFailed e)
  | .ok body =>
    match into_json body with
    | .error ioe => .error (.FailedResponseToString ioe)
    | .ok r => .ok r

/-! ### Helper lemmas about the field loop -/

theorem applyField_date (e : SeriesEntry) (kv : String × String) (e' : SeriesEntry)
    (h : applyField e kv = some e') : e'.date = e.date := by
  unfold applyField at h
  repeat' split at h
  all_goals
    first
    | (obtain ⟨v, hv, rfl⟩ := Option.map_eq_some'.mp h; rfl)
    | (cases h; rfl)

theorem applyField_isSome (e : SeriesEntry) (kv : String × String) :
    (applyField e kv).isSome = fieldParseOk kv.1 kv.2 := by
  unfold applyField fieldParseOk
  repeat' split
  all_goals simp [Option.isSome_map]

theorem applyField_ne_open (e : SeriesEntry) (kv : String × String) (e' : SeriesEntry)
    (hne : kv.1 ≠ "1. open") (h : applyField e kv = some e') : e'.«open» = e.«open» := by
  unfold applyField at h
  repeat' split at h
  all_goals
    first
    | (exact absurd ‹kv.1 = "1. open"› hne)
    | (obtain ⟨v, hv, rfl⟩ := Option.map_eq_some'.mp h; rfl)
    | (cases h; rfl)

theorem applyField_ne_high (e : SeriesEntry) (kv : String × String) (e' : SeriesEntry)
    (hne : kv.1 ≠ "2. high") (h : applyField e kv = some e') : e'.high = e.high := by
  unfold applyField at h
  repeat' split at h
  all_goals
    first
    | (exact absurd ‹kv.1 = "2. high"› hne)
    | (obtain ⟨v, hv, rfl⟩ := Option.map_eq_some'.mp h; rfl)
    | (cases h; rfl)

theorem applyField_ne_low (e : SeriesEntry) (kv : String × String) (e' : SeriesEntry)
    (hne : kv.1 ≠ "3. low") (h : applyField e kv = some e') : e'.low = e.low := by
  unfold applyField at h
  repeat' split at h
  all_goals
    first
    | (exact absurd ‹kv.1 = "3. low"› hne)
    | (obtain ⟨v, hv, rfl⟩ := Option.map_eq_some'.mp h; rfl)
    | (cases h; rfl)

theorem applyField_ne_close (e : SeriesEntry) (kv : String × String) (e' : SeriesEntry)
    (hne : kv.1 ≠ "4. close") (h : applyField e kv = some e') : e'.close = e.close := by
  unfold applyField at h
  repeat' split at h
  all_goals
    first
    | (exact absurd ‹kv.1 = "4. close"› hne)
    | (obtain ⟨v, hv, rfl⟩ := Option.map_eq_some'.mp h; rfl)
    | (cases h; rfl)

theorem applyField_ne_volume (e : SeriesEntry) (kv : String × String) (e' : SeriesEntry)
    (hne : kv.1 ≠ "5. volume") (h : applyField e kv = some e') : e'.volume = e.volume := by
  unfold applyField at h
  repeat' split at h
  all_goals
    first
    | (exact absurd ‹kv.1 = "5. volume"› hne)
    | (obtain ⟨v, hv, rfl⟩ := Option.map_eq_some'.mp h; rfl)
    | (cases h; rfl)

theorem applyField_open_eq (e : SeriesEntry) (s : String) (e' : SeriesEntry)
    (h : applyField e ("1. open", s) = some e') : parseF32 s = some e'.«open» := by
  unfold applyField at h
  simp only [reduceIte] at h
  obtain ⟨v, hv, rfl⟩ := Option.map_eq_some'.mp h
  exact hv

theorem applyField_high_eq (e : SeriesEntry) (s : String) (e' : SeriesEntry)
    (h : applyField e ("2. high", s) = some e') : parseF32 s = some e'.high := by
  unfold applyField at h
  simp only [reduceIte] at h
  obtain ⟨v, hv, rfl⟩ := Option.map_eq_some'.mp h
  exact hv

theorem applyField_low_eq (e : SeriesEntry) (s : String) (e' : SeriesEntry)
    (h : applyField e ("3. low", s) = some e') : parseF32 s = some e'.low := by
  unfold applyField at h
  simp only [reduceIte] at h
  obtain ⟨v, hv, rfl⟩ := Option.map_eq_some'.mp h
  exact hv

theorem applyField_close_eq (e : SeriesEntry) (s : String) (e' : SeriesEntry)
    (h : applyField e ("4. close", s) = some e') : parseF32 s = some e'.close := by
  unfold applyField at h
  simp only [reduceIte] at h
  obtain ⟨v, hv, rfl⟩ := Option.map_eq_some'.mp h
  exact hv

theorem applyField_volume_eq (e : SeriesEntry) (s : String) (e' : SeriesEntry)
    (h : applyField e ("5. volume", s) = some e') : parseU64 s = some e'.volume := by
  unfold applyField at h
  simp only [reduceIte] at h
  obtain ⟨v, hv, rfl⟩ := Option.map_eq_some'.mp h
  exact hv

theorem applyField_unrecognized (e : SeriesEntry) (kv : String × String)
    (h : isRecognized kv.1 = false) : applyField e kv = some e := by
  unfold isRecognized at h
  simp only [Bool.or_eq_false_iff, beq_eq_false_iff_ne, ne_eq] at h
  obtain ⟨⟨⟨⟨h1, h2⟩, h3⟩, h4⟩, h5⟩ := h
  unfold applyField
  rw [if_neg h1, if_neg h2, if_neg h3, if_neg h4, if_neg h5]

theorem parseFields_date (l : List (String × String)) (e e' : SeriesEntry)
    (h : parseFields l e = some e') : e'.date = e.date := by
  induction l generalizing e with
  | nil =>
    injection h with h2
    rw [← h2]
  | cons kv rest ih =>
    cases happ : applyField e kv with
    | none => simp [parseFields, happ] at h
    | some e1 =>
      simp only [parseFields, happ, Option.some_bind] at h
      rw [ih e1 h, applyField_date e kv e1 happ]

theorem parseFields_none_iff (l : List (String × String)) (e : SeriesEntry) :
    parseFields l e = none ↔ ∃ kv ∈ l, fieldParseOk kv.1 kv.2 = false := by
  induction l generalizing e with
  | nil => simp [parseFields]
  | cons kv rest ih =>
    cases happ : applyField e kv with
    | none =>
      have hbad : fieldParseOk kv.1 kv.2 = false := by
        have hs := applyField_isSome e kv
        rw [happ] at hs
        exact hs.symm
      have hL : parseFields (kv :: rest) e = none := by simp [parseFields, happ]
      exact iff_of_true hL ⟨kv, List.mem_cons_self kv rest, hbad⟩
    | some e1 =>
      have hok : fieldParseOk kv.1 kv.2 = true := by
        have hs := applyField_isSome e kv
        rw [happ] at hs
        exact hs.symm
      have hstep : parseFields (kv :: rest) e = parseFields rest e1 := by
        simp [parseFields, happ]
      rw [hstep, ih]
      constructor
      · rintro ⟨kv', hm, hb⟩
        exact ⟨kv', List.mem_cons_of_mem _ hm, hb⟩
      · rintro ⟨kv', hm, hb⟩
        rcases List.mem_cons.mp hm with heq | hmem
        · rw [heq, hok] at hb
          cases hb
        · exact ⟨kv', hmem, hb⟩

theorem parseFields_absent_open (l : List (String × String)) (e e' : SeriesEntry)
    (habs : "1. open" ∉ l.map Prod.fst) (h : parseFields l e = some e') :
    e'.«open» = e.«open» := by
  induction l generalizing e with
  | nil =>
    injection h with h2
    rw [← h2]
  | cons kv rest ih =>
    simp only [List.map_cons, List.mem_cons, not_or] at habs
    cases happ : applyField e kv with
    | none => simp [parseFields, happ] at h
    | some e1 =>
      simp only [parseFields, happ, Option.some_bind] at h
      rw [ih e1 habs.2 h, applyField_ne_open e kv e1 (fun hc => habs.1 hc.symm) happ]

theorem parseFields_absent_high (l : List (String × String)) (e e' : SeriesEntry)
    (habs : "2. high" ∉ l.map Prod.fst) (h : parseFields l e = some e') :
    e'.high = e.high := by
  induction l generalizing e with
  | nil =>
    injection h with h2
    rw [← h2]
  | cons kv rest ih =>
    simp only [List.map_cons, List.mem_cons, not_or] at habs
    cases happ : applyField e kv with
    | none => simp [parseFields, happ] at h
    | some e1 =>
      simp only [parseFields, happ, Option.some_bind] at h
      rw [ih e1 habs.2 h, applyField_ne_high e kv e1 (fun hc => habs.1 hc.symm) happ]

theorem parseFields_absent_low (l : List (String × String)) (e e' : SeriesEntry)
    (habs : "3. low" ∉ l.map Prod.fst) (h : parseFields l e = some e') :
    e'.low = e.low := by
  induction l generalizing e with
  | nil =>
    injection h with h2
    rw [← h2]
  | cons kv rest ih =>
    simp only [List.map_cons, List.mem_cons, not_or] at habs
    cases happ : applyField e kv with
    | none => simp [parseFields, happ] at h
    | some e1 =>
      simp only [parseFields, happ, Option.some_bind] at h
      rw [ih e1 habs.2 h, applyField_ne_low e kv e1 (fun hc => habs.1 hc.symm) happ]

theorem parseFields_absent_close (l : List (String × String)) (e e' : SeriesEntry)
    (habs : "4. close" ∉ l.map Prod.fst) (h : parseFields l e = some e') :
    e'.close = e.close := by
  induction l generalizing e with
  | nil =>
    injection h with h2
    rw [← h2]
  | cons kv rest ih =>
    simp only [List.map_cons, List.mem_cons, not_or] at habs
    cases happ : applyField e kv with
    | none => simp [parseFields, happ] at h
    | some e1 =>
      simp only [parseFields, happ, Option.some_bind] at h
      rw [ih e1 habs.2 h, applyField_ne_close e kv e1 (fun hc => habs.1 hc.symm) happ]

theorem parseFields_absent_volume (l : List (String × String)) (e e' : SeriesEntry)
    (habs : "5. volume" ∉ l.map Prod.fst) (h : parseFields l e = some e') :
    e'.volume = e.volume := by
  induction l generalizing e with
  | nil =>
    injection h with h2
    rw [← h2]
  | cons kv rest ih =>
    simp only [List.map_cons, List.mem_cons, not_or] at habs
    cases happ : applyField e kv with
    | none => simp [parseFields, happ] at h
    | some e1 =>
      simp only [parseFields, happ, Option.some_bind] at h
      rw [ih e1 habs.2 h, applyField_ne_volume e kv e1 (fun hc => habs.1 hc.symm) happ]

theorem nodupKeys_val_unique {α β : Type} {l : List (α × β)}
    (hnd : (l.map Prod.fst).Nodup) {a : α} {b c : β}
    (h1 : (a, b) ∈ l) (h2 : (a, c) ∈ l) : b = c := by
  induction l with
  | nil => cases h1
  | cons kv rest ih =>
    simp only [List.map_cons, List.nodup_cons] at hnd
    rcases List.mem_cons.mp h1 with e1 | m1 <;> rcases List.mem_cons.mp h2 with e2 | m2
    · have : (a, b) = (a, c) := e1.trans e2.symm
      exact (Prod.mk.injEq _ _ _ _ ▸ this).2
    · exact absurd (List.mem_map.mpr ⟨(a, c), m2, by rw [← e1]⟩) hnd.1
    · exact absurd (List.mem_map.mpr ⟨(a, b), m1, by rw [← e2]⟩) hnd.1
    · exact ih hnd.2 m1 m2

theorem parseFields_mem_open (l : List (String × String)) (e e' : SeriesEntry) (s : String)
    (hnd : (l.map Prod.fst).Nodup) (hm : ("1. open", s) ∈ l)
    (h : parseFields l e = some e') : parseF32 s = some e'.«open» := by
  induction l generalizing e with
  | nil => cases hm
  | cons kv rest ih =>
    simp only [List.map_cons, List.nodup_cons] at hnd
    cases happ : applyField e kv with
    | none => simp [parseFields, happ] at h
    | some e1 =>
      simp only [parseFields, happ, Option.some_bind] at h
      rcases List.mem_cons.mp hm with heq | hmem
      · have hkv : kv = ("1. open", s) := heq.symm
        subst hkv
        have habs : "1. open" ∉ rest.map Prod.fst := hnd.1
        rw [parseFields_absent_open rest e1 e' habs h] at *
        exact applyField_open_eq e s e1 happ
      · exact ih e1 hnd.2 hmem h

theorem parseFields_mem_high (l : List (String × String)) (e e' : SeriesEntry) (s : String)
    (hnd : (l.map Prod.fst).Nodup) (hm : ("2. high", s) ∈ l)
    (h : parseFields l e = some e') : parseF32 s = some e'.high := by
  induction l generalizing e with
  | nil => cases hm
  | cons kv rest ih =>
    simp only [List.map_cons, List.nodup_cons] at hnd
    cases happ : applyField e kv with
    | none => simp [parseFields, happ] at h
    | some e1 =>
      simp only [parseFields, happ, Option.some_bind] at h
      rcases List.mem_cons.mp hm with heq | hmem
      · have hkv : kv = ("2. high", s) := heq.symm
        subst hkv
        have habs : "2. high" ∉ rest.map Prod.fst := hnd.1
        rw [parseFields_absent_high rest e1 e' habs h] at *
        exact applyField_high_eq e s e1 happ
      · exact ih e1 hnd.2 hmem h

theorem parseFields_mem_low (l : List (String × String)) (e e' : SeriesEntry) (s : String)
    (hnd : (l.map Prod.fst).Nodup) (hm : ("3. low", s) ∈ l)
    (h : parseFields l e = some e') : parseF32 s = some e'.low := by
  induction l generalizing e with
  | nil => cases hm
  | cons kv rest ih =>
    simp only [List.map_cons, List.nodup_cons] at hnd
    cases happ : applyField e kv with
    | none => simp [parseFields, happ] at h
    | some e1 =>
      simp only [parseFields, happ, Option.some_bind] at h
      rcases List.mem_cons.mp hm with heq | hmem
      · have hkv : kv = ("3. low", s) := heq.symm
        subst hkv
        have habs : "3. low" ∉ rest.map Prod.fst := hnd.1
        rw [parseFields_absent_low rest e1 e' habs h] at *
        exact applyField_low_eq e s e1 happ
      · exact ih e1 hnd.2 hmem h

theorem parseFields_mem_close (l : List (String × String)) (e e' : SeriesEntry) (s : String)
    (hnd : (l.map Prod.fst).Nodup) (hm : ("4. close", s) ∈ l)
    (h : parseFields l e = some e') : parseF32 s = some e'.close := by
  induction l generalizing e with
  | nil => cases hm
  | cons kv rest ih =>
    simp only [List.map_cons, List.nodup_cons] at hnd
    cases happ : applyField e kv with
    | none => simp [parseFields, happ] at h
    | some e1 =>
      simp only [parseFields, happ, Option.some_bind] at h
      rcases List.mem_cons.mp hm with heq | hmem
      · have hkv : kv = ("4. close", s) := heq.symm
        subst hkv
        have habs : "4. close" ∉ rest.map Prod.fst := hnd.1
        rw [parseFields_absent_close rest e1 e' habs h] at *
        exact applyField_close_eq e s e1 happ
      · exact ih e1 hnd.2 hmem h

theorem parseFields_mem_volume (l : List (String × String)) (e e' : SeriesEntry) (s : String)
    (hnd : (l.map Prod.fst).Nodup) (hm : ("5. volume", s) ∈ l)
    (h : parseFields l e = some e') : parseU64 s = some e'.volume := by
  induction l generalizing e with
  | nil => cases hm
  | cons kv rest ih =>
    simp only [List.map_cons, List.nodup_cons] at hnd
    cases happ : applyField e kv with
    | none => simp [parseFields, happ] at h
    | some e1 =>
      simp only [parseFields, happ, Option.some_bind] at h
      rcases List.mem_cons.mp hm with heq | hmem
      · have hkv : kv = ("5. volume", s) := heq.symm
        subst hkv
        have habs : "5. volume" ∉ rest.map Prod.fst := hnd.1
        rw [parseFields_absent_volume rest e1 e' habs h] at *
        exact applyField_volume_eq e s e1 happ
      · exact ih e1 hnd.2 hmem h

/-! ### Helper lemmas about the entry loop -/

theorem parseEntry_none_iff (p : String × List (String × String)) :
    parseEntry p = none ↔
      parseDateTime p.1 = none ∨ ∃ kv ∈ p.2, fieldParseOk kv.1 kv.2 = false := by
  unfold parseEntry
  cases hd : parseDateTime p.1 with
  | none => exact iff_of_true rfl (Or.inl rfl)
  | some d =>
    rw [parseFields_none_iff]
    constructor
    · exact Or.inr
    · rintro (hc | hc)
      · cases hc
      · exact hc

theorem parseEntry_date (p : String × List (String × String)) (e : SeriesEntry)
    (h : parseEntry p = some e) : parseDateTime p.1 = some e.date := by
  unfold parseEntry at h
  cases hd : parseDateTime p.1 with
  | none => rw [hd] at h; cases h
  | some d =>
    rw [hd] at h
    rw [parseFields_date p.2 _ e h]

theorem parseAll_none_iff (ts : List (String × List (String × String))) :
    parseAll ts = none ↔ ∃ p ∈ ts, parseEntry p = none := by
  induction ts with
  | nil => simp [parseAll]
  | cons p rest ih =>
    cases hp : parseEntry p with
    | none =>
      have hL : parseAll (p :: rest) = none := by simp [parseAll, hp]
      exact iff_of_true hL ⟨p, List.mem_cons_self p rest, hp⟩
    | some e =>
      cases hr : parseAll rest with
      | none =>
        have hL : parseAll (p :: rest) = none := by simp [parseAll, hp, hr]
        refine iff_of_true hL ?_
        obtain ⟨q, hq, hqn⟩ := ih.mp hr
        exact ⟨q, List.mem_cons_of_mem _ hq, hqn⟩
      | some l =>
        have hL : parseAll (p :: rest) = some (e :: l) := by simp [parseAll, hp, hr]
        rw [hL]
        constructor
        · intro hc; cases hc
        · rintro ⟨q, hq, hqn⟩
          rcases List.mem_cons.mp hq with heq | hmem
          · rw [heq, hp] at hqn; cases hqn
          · have : parseAll rest = none := ih.mpr ⟨q, hmem, hqn⟩
            rw [this] at hr; cases hr

theorem parseAll_length (ts : List (String × List (String × String)))
    (l : List SeriesEntry) (h : parseAll ts = some l) : l.length = ts.length := by
  induction ts generalizing l with
  | nil =>
    injection h with h2
    rw [← h2]
    rfl
  | cons p rest ih =>
    cases hp : parseEntry p with
    | none => simp [parseAll, hp] at h
    | some e =>
      cases hr : parseAll rest with
      | none => simp [parseAll, hp, hr] at h
      | some l0 =>
        have : parseAll (p :: rest) = some (e :: l0) := by simp [parseAll, hp, hr]
        rw [this] at h
        injection h with h2
        rw [← h2]
        simp [ih l0 hr]

theorem parseAll_mem_isSome (ts : List (String × List (String × String)))
    (l : List SeriesEntry) (h : parseAll ts = some l)
    (p : String × List (String × String)) (hp : p ∈ ts) :
    ∃ e, parseEntry p = some e := by
  cases he : parseEntry p with
  | some e => exact ⟨e, rfl⟩
  | none =>
    have : parseAll ts = none := (parseAll_none_iff ts).mpr ⟨p, hp, he⟩
    rw [this] at h
    cases h

/-! ### Claim theorems -/

/-- C1: for every raw response with N timestamp keys, a successful
`parse_response` returns exactly N `SeriesEntry` records sorted
non-decreasing by timestamp; the input association list stands for an
arbitrary iteration order of the hash map, so quantifying over all of
them makes the property independent of iteration order. -/
theorem c1_normalize_count_and_order (r : AlphaVantageResponse) (res : List SeriesEntry)
    (h : parse_response r = some res) :
    res.length = r.time_series_helper.time_series.length ∧ List.Sorted entryLe res := by
  obtain ⟨l, hl, hsort⟩ := Option.map_eq_some'.mp h
  constructor
  · rw [← hsort, List.length_insertionSort, parseAll_length _ l hl]
  · rw [← hsort]
    exact List.sorted_insertionSort entryLe l

/-- C1 witness: a concrete two-key response given in reverse
chronological order normalizes to two entries in chronological order. -/
theorem c1_witness :
    ([⟨⟨2024, 1, 2, 9, 0, 0⟩, 0, 0, 0, 0, 0⟩, ⟨⟨2024, 1, 2, 10, 0, 0⟩, 0, 0, 0, 0, 0⟩] :
        List SeriesEntry).length =
      (AlphaVantageResponse.mk ⟨[("2024-01-02 10:00:00", []), ("2024-01-02 09:00:00", [])]⟩
          ).time_series_helper.time_series.length ∧
    List.Sorted entryLe
      [⟨⟨2024, 1, 2, 9, 0, 0⟩, 0, 0, 0, 0, 0⟩, ⟨⟨2024, 1, 2, 10, 0, 0⟩, 0, 0, 0, 0, 0⟩] :=
  c1_normalize_count_and_order
    ⟨⟨[("2024-01-02 10:00:00", []), ("2024-01-02 09:00:00", [])]⟩⟩
    [⟨⟨2024, 1, 2, 9, 0, 0⟩, 0, 0, 0, 0, 0⟩, ⟨⟨2024, 1, 2, 10, 0, 0⟩, 0, 0, 0, 0, 0⟩]
    (by decide)

/-- C4 counterexample: a raw entry whose recognized label `"1. open"`
carries the malformed value `"abc"` does not yield a zero `open` field;
it makes the whole normalization fail (`data.parse().unwrap()` panics),
so the claimed silent zero default for malformed values is false. -/
theorem c4_counterexample :
    parse_response ⟨⟨[("2024-01-02 09:30:00", [("1. open", "abc")])]⟩⟩ = none := by
  decide

/-- C4 amended: when any raw entry has a recognized label whose value
fails its numeric parse, the entire normalization call fails; only
labels absent from the map yield the zero defaults. -/
theorem c4_amended (r : AlphaVantageResponse) (p : String × List (String × String))
    (kv : String × String) (hp : p ∈ r.time_series_helper.time_series) (hkv : kv ∈ p.2)
    (hbad : fieldParseOk kv.1 kv.2 = false) : parse_response r = none := by
  unfold parse_response
  rw [Option.map_eq_none']
  exact (parseAll_none_iff _).mpr ⟨p, hp, (parseEntry_none_iff p).mpr (Or.inr ⟨kv, hkv, hbad⟩)⟩

/-- C4 witness: the amended claim at a concrete response whose
`"2. high"` value is malformed. -/
theorem c4_witness :
    parse_response ⟨⟨[("2024-01-02 10:00:00", [("2. high", "oops")])]⟩⟩ = none :=
  c4_amended ⟨⟨[("2024-01-02 10:00:00", [("2. high", "oops")])]⟩⟩
    ("2024-01-02 10:00:00", [("2. high", "oops")]) ("2. high", "oops")
    (by decide) (by decide) (by decide)

/-- C6: normalization of one raw entry is invariant under removing the
labels outside the five recognized ones; unrecognized labels are
ignored (the `_ => {}` arm), never rejected. -/
theorem c6_unknown_labels_ignored (k : String) (fields : List (String × String)) :
    parseEntry (k, fields) = parseEntry (k, fields.filter (fun kv => isRecognized kv.1)) := by
  have main : ∀ (l : List (String × String)) (e : SeriesEntry),
      parseFields l e = parseFields (l.filter (fun kv => isRecognized kv.1)) e := by
    intro l
    induction l with
    | nil => intro e; rfl
    | cons kv rest ih =>
      intro e
      cases hrec : isRecognized kv.1 with
      | true =>
        simp only [List.filter_cons, hrec, reduceIte]
        show (applyField e kv).bind _ = (applyField e kv).bind _
        cases applyField e kv with
        | none => rfl
        | some e1 => exact ih e1
      | false =>
        simp only [List.filter_cons, hrec, reduceIte]
        show (applyField e kv).bind _ = _
        rw [applyField_unrecognized e kv hrec]
        exact ih e
  unfold parseEntry
  cases parseDateTime k with
  | none => rfl
  | some d => exact main fields _

/-- C6 witness: the invariance instantiated at a concrete entry with an
extra unrecognized label. -/
theorem c6_witness :
    parseEntry ("2024-01-02 09:30:00", [("1. open", "10.0"), ("junk", "x")]) =
      parseEntry ("2024-01-02 09:30:00",
        [("1. open", "10.0"), ("junk", "x")].filter (fun kv => isRecognized kv.1)) :=
  c6_unknown_labels_ignored "2024-01-02 09:30:00" [("1. open", "10.0"), ("junk", "x")]

/-- C9: the empty raw response normalizes successfully to the empty
sequence. -/
theorem c9_empty_response : parse_response ⟨⟨[]⟩⟩ = some [] := by
  decide

/-- C10: `AlphaVantageRequest::new` (and `build_request` over it)
performs no validation whatsoever — for all inputs, the empty string
included, construction succeeds (the function is total) and the three
fields hold the inputs verbatim. -/
theorem c10_request_verbatim (f s i : String) :
    (AlphaVantageRequest.new f s i).function = f ∧
    (AlphaVantageRequest.new f s i).symbol = s ∧
    (AlphaVantageRequest.new f s i).interval = i ∧
    build_request f s i = AlphaVantageRequest.new f s i :=
  ⟨rfl, rfl, rfl, rfl⟩

/-- C10 witness: construction from three empty strings still succeeds
with the fields held verbatim. -/
theorem c10_witness :
    (AlphaVantageRequest.new "" "" "").function = "" ∧
    (AlphaVantageRequest.new "" "" "").symbol = "" ∧
    (AlphaVantageRequest.new "" "" "").interval = "" ∧
    build_request "" "" "" = AlphaVantageRequest.new "" "" "" :=
  c10_request_verbatim "" "" ""

/-- C2: a raw entry whose field map contains all five recognized labels
with parseable values (in any order, extra labels allowed, keys unique
as in a hash map) normalizes to the entry holding exactly the parsed
values. -/
theorem c2_round_trip_fields (k : String) (fields : List (String × String)) (d : DateTime)
    (so sh sl sc sv : String) (vo vh vl vc : Rat) (vv : Nat)
    (hd : parseDateTime k = some d)
    (hnd : (fields.map Prod.fst).Nodup)
    (hmo : ("1. open", so) ∈ fields) (hpo : parseF32 so = some vo)
    (hmh : ("2. high", sh) ∈ fields) (hph : parseF32 sh = some vh)
    (hml : ("3. low", sl) ∈ fields) (hpl : parseF32 sl = some vl)
    (hmc : ("4. close", sc) ∈ fields) (hpc : parseF32 sc = some vc)
    (hmv : ("5. volume", sv) ∈ fields) (hpv : parseU64 sv = some vv) :
    ∃ e, parseEntry (k, fields) = some e ∧
      e.«open» = vo ∧ e.high = vh ∧ e.low = vl ∧ e.close = vc ∧ e.volume = vv ∧
      e.date = d := by
  have hok : ∀ kv ∈ fields, fieldParseOk kv.1 kv.2 = true := by
    intro kv hkv
    unfold fieldParseOk
    repeat' split
    · rename_i hlab
      have hkv' : ("1. open", kv.2) ∈ fields := by rw [← hlab]; exact hkv
      rw [nodupKeys_val_unique hnd hkv' hmo, hpo]; rfl
    · rename_i hlab
      have hkv' : ("2. high", kv.2) ∈ fields := by rw [← hlab]; exact hkv
      rw [nodupKeys_val_unique hnd hkv' hmh, hph]; rfl
    · rename_i hlab
      have hkv' : ("3. low", kv.2) ∈ fields := by rw [← hlab]; exact hkv
      rw [nodupKeys_val_unique hnd hkv' hml, hpl]; rfl
    · rename_i hlab
      have hkv' : ("4. close", kv.2) ∈ fields := by rw [← hlab]; exact hkv
      rw [nodupKeys_val_unique hnd hkv' hmc, hpc]; rfl
    · rename_i hlab
      have hkv' : ("5. volume", kv.2) ∈ fields := by rw [← hlab]; exact hkv
      rw [nodupKeys_val_unique hnd hkv' hmv, hpv]; rfl
    · rfl
  have hne : parseEntry (k, fields) ≠ none := by
    intro hc
    rcases (parseEntry_none_iff (k, fields)).mp hc with hcd | ⟨kv, hkv, hbad⟩
    · have hcd' : parseDateTime k = none := hcd
      rw [hd] at hcd'
      cases hcd'
    · rw [hok kv hkv] at hbad
      cases hbad
  obtain ⟨e, he⟩ := Option.ne_none_iff_exists'.mp hne
  have hfe : parseFields fields { SeriesEntry.default with date := d } = some e := by
    unfold parseEntry at he
    rw [hd] at he
    exact he
  refine ⟨e, he, ?_, ?_, ?_, ?_, ?_, ?_⟩
  · exact Option.some.inj ((parseFields_mem_open fields _ e so hnd hmo hfe).symm.trans hpo)
  · exact Option.some.inj ((parseFields_mem_high fields _ e sh hnd hmh hfe).symm.trans hph)
  · exact Option.some.inj ((parseFields_mem_low fields _ e sl hnd hml hfe).symm.trans hpl)
  · exact Option.some.inj ((parseFields_mem_close fields _ e sc hnd hmc hfe).symm.trans hpc)
  · exact Option.some.inj ((parseFields_mem_volume fields _ e sv hnd hmv hfe).symm.trans hpv)
  · exact parseFields_date fields _ e hfe

/-- C2 witness: a concrete field map listing the five labels out of
order with an extra unrecognized label. -/
theorem c2_witness :
    ∃ e, parseEntry ("2024-01-02 09:30:00",
        [("5. volume", "1000"), ("junk", "x"), ("2. high", "11.0"), ("1. open", "10.0"),
          ("4. close", "10.5"), ("3. low", "9.5")]) = some e ∧
      e.«open» = 10 ∧ e.high = 11 ∧ e.low = mkRat 19 2 ∧ e.close = mkRat 21 2 ∧
      e.volume = 1000 ∧ e.date = ⟨2024, 1, 2, 9, 30, 0⟩ :=
  c2_round_trip_fields "2024-01-02 09:30:00"
    [("5. volume", "1000"), ("junk", "x"), ("2. high", "11.0"), ("1. open", "10.0"),
      ("4. close", "10.5"), ("3. low", "9.5")]
    ⟨2024, 1, 2, 9, 30, 0⟩ "10.0" "11.0" "9.5" "10.5" "1000" 10 11 (mkRat 19 2) (mkRat 21 2) 1000
    (by decide) (by decide) (by decide) (by decide) (by decide) (by decide) (by decide)
    (by decide) (by decide) (by decide) (by decide) (by decide)

/-- C3: normalization fails exactly when some timestamp key fails the
fixed-pattern parse or some recognized label has an unparsable value —
and then the whole call fails with no partial results (the `Option`
result has no partial success to offer); moreover the well-formed key
`"2024-01-02 09:30:00"` parses to that calendar date-time with second
precision while the date-only key `"2024-01-02"` makes normalization
fail. -/
theorem c3_failure_characterization (r : AlphaVantageResponse) :
    (parse_response r = none ↔
      (∃ p ∈ r.time_series_helper.time_series, parseDateTime p.1 = none) ∨
      (∃ p ∈ r.time_series_helper.time_series, ∃ kv ∈ p.2, fieldParseOk kv.1 kv.2 = false)) ∧
    parseDateTime "2024-01-02 09:30:00" = some ⟨2024, 1, 2, 9, 30, 0⟩ ∧
    parseDateTime "2024-01-02" = none := by
  refine ⟨?_, by decide, by decide⟩
  unfold parse_response
  rw [Option.map_eq_none', parseAll_none_iff]
  constructor
  · rintro ⟨p, hp, hpe⟩
    rcases (parseEntry_none_iff p).mp hpe with hc | hc
    · exact Or.inl ⟨p, hp, hc⟩
    · exact Or.inr ⟨p, hp, hc⟩
  · rintro (⟨p, hp, hc⟩ | ⟨p, hp, hc⟩)
    · exact ⟨p, hp, (parseEntry_none_iff p).mpr (Or.inl hc)⟩
    · exact ⟨p, hp, (parseEntry_none_iff p).mpr (Or.inr hc)⟩

/-- C3 witness: the failure characterization instantiated at the empty
response. -/
theorem c3_witness :
    (parse_response ⟨⟨[]⟩⟩ = none ↔
      (∃ p ∈ (⟨⟨[]⟩⟩ : AlphaVantageResponse).time_series_helper.time_series,
        parseDateTime p.1 = none) ∨
      (∃ p ∈ (⟨⟨[]⟩⟩ : AlphaVantageResponse).time_series_helper.time_series,
        ∃ kv ∈ p.2, fieldParseOk kv.1 kv.2 = false)) ∧
    parseDateTime "2024-01-02 09:30:00" = some ⟨2024, 1, 2, 9, 30, 0⟩ ∧
    parseDateTime "2024-01-02" = none :=
  c3_failure_characterization ⟨⟨[]⟩⟩

/-- C5: entries missing recognized labels are still produced (one entry
per key, nothing dropped) and their unset fields hold the zero
defaults. -/
theorem c5_missing_labels_default (r : AlphaVantageResponse) (res : List SeriesEntry)
    (h : parse_response r = some res) :
    res.length = r.time_series_helper.time_series.length ∧
    ∀ p ∈ r.time_series_helper.time_series, ∃ e, parseEntry p = some e ∧
      ("1. open" ∉ p.2.map Prod.fst → e.«open» = 0) ∧
      ("2. high" ∉ p.2.map Prod.fst → e.high = 0) ∧
      ("3. low" ∉ p.2.map Prod.fst → e.low = 0) ∧
      ("4. close" ∉ p.2.map Prod.fst → e.close = 0) ∧
      ("5. volume" ∉ p.2.map Prod.fst → e.volume = 0) := by
  obtain ⟨l, hl, hsort⟩ := Option.map_eq_some'.mp h
  refine ⟨by rw [← hsort, List.length_insertionSort, parseAll_length _ l hl], ?_⟩
  intro p hp
  obtain ⟨e, he⟩ := parseAll_mem_isSome _ l hl p hp
  cases hd : parseDateTime p.1 with
  | none =>
    unfold parseEntry at he
    rw [hd] at he
    cases he
  | some d =>
    have hfe : parseFields p.2 { SeriesEntry.default with date := d } = some e := by
      unfold parseEntry at he
      rw [hd] at he
      exact he
    exact ⟨e, he,
      fun hab => parseFields_absent_open _ _ _ hab hfe,
      fun hab => parseFields_absent_high _ _ _ hab hfe,
      fun hab => parseFields_absent_low _ _ _ hab hfe,
      fun hab => parseFields_absent_close _ _ _ hab hfe,
      fun hab => parseFields_absent_volume _ _ _ hab hfe⟩

/-- C5 witness: the spec's own scenario — the 09:00:00 entry carries
only `"4. close"`, is still produced, and its other fields are zero. -/
theorem c5_witness :
    ∃ e, parseEntry ("2024-01-02 09:00:00", [("4. close", "9.0")]) = some e ∧
      ("1. open" ∉ [("4. close", "9.0")].map Prod.fst → e.«open» = 0) ∧
      ("2. high" ∉ [("4. close", "9.0")].map Prod.fst → e.high = 0) ∧
      ("3. low" ∉ [("4. close", "9.0")].map Prod.fst → e.low = 0) ∧
      ("4. close" ∉ [("4. close", "9.0")].map Prod.fst → e.close = 0) ∧
      ("5. volume" ∉ [("4. close", "9.0")].map Prod.fst → e.volume = 0) :=
  (c5_missing_labels_default
    ⟨⟨[("2024-01-02 10:00:00",
          [("1. open", "10.0"), ("2. high", "11.0"), ("3. low", "9.5"), ("4. close", "10.5"),
            ("5. volume", "1000")]),
        ("2024-01-02 09:00:00", [("4. close", "9.0")])]⟩⟩
    [⟨⟨2024, 1, 2, 9, 0, 0⟩, 0, 0, 0, 9, 0⟩,
      ⟨⟨2024, 1, 2, 10, 0, 0⟩, 10, 11, mkRat 19 2, mkRat 21 2, 1000⟩]
    (by decide)).2
    ("2024-01-02 09:00:00", [("4. close", "9.0")]) (by decide)

/-- True when a `fetch` result is the `IssueDeserialisationError`
variant. -/
def fetchErrIsDeser : Except AlphaVantageError AlphaVantageResponse → Bool
  | .error e => e.isDeser
  | .ok _ => false

/-- C7: how `fetch` actually classifies its three failure kinds. A
transport/status failure from `req.call()` is `RequestFailed`; a
body-read failure is `FailedResponseToString`; but invalid JSON and a
missing top-level key are also `FailedResponseToString` (ureq's
`into_json` wraps serde errors into an `io::Error` of kind
`InvalidData`), and no execution of `fetch` can ever return
`IssueDeserialisationError` — the variant is dead code, so the three
kinds are not all distinguishable as the claim states. -/
theorem c7_fetch_error_classification (cl : AlphaVantageClient) (req : AlphaVantageRequest) :
    (∀ e, cl.fetch req (.error e) = .error (.RequestFailed e)) ∧
    cl.fetch req (.ok .failure) = .error (.FailedResponseToString .readFailure) ∧
    cl.fetch req (.ok (.ok none)) = .error (.FailedResponseToString .invalidData) ∧
    cl.fetch req (.ok (.ok (some (Json.obj [])))) =
      .error (.FailedResponseToString .invalidData) ∧
    (∀ o, fetchErrIsDeser (cl.fetch req o) = false) := by
  refine ⟨fun e => rfl, rfl, rfl, rfl, ?_⟩
  intro o
  cases o with
  | error e => rfl
  | ok body =>
    show fetchErrIsDeser
      (match into_json body with
        | .error ioe => .error (.FailedResponseToString ioe)
        | .ok r => .ok r) = false
    cases into_json body with
    | error ioe => rfl
    | ok r => rfl

/-- The provider label parameterized by an interval equals the
hard-coded 60-minute label only for the 60-minute interval itself. -/
theorem timeSeriesKey_eq_iff (i : String) :
    ("Time Series (" ++ i ++ ")" = "Time Series (60min)") ↔ i = "60min" := by
  constructor
  · intro h
    have hd := congrArg String.data h
    rw [String.data_append, String.data_append] at hd
    have h60 : "Time Series (60min)".data = ("Time Series (".data ++ "60min".data) ++ ")".data := by
      decide
    rw [h60] at hd
    exact String.ext (List.append_cancel_left (List.append_cancel_right hd))
  · intro h
    subst h
    rfl

/-- C8 counterexample: for the concrete request with interval `"5min"`,
the interval-parameterized label is `"Time Series (5min)"`, yet a body
carrying exactly that key fails deserialization, while a body carrying
`"Time Series (60min)"` succeeds — the expected key does not follow the
request's interval. -/
theorem c8_counterexample :
    "Time Series (" ++ (build_request "TIME_SERIES_INTRADAY" "TEAM" "5min").interval ++ ")"
        = "Time Series (5min)" ∧
    decodeAV (Json.obj [("Time Series (5min)", Json.obj [])]) = none ∧
    decodeAV (Json.obj [("Time Series (60min)", Json.obj [])]) = some ⟨⟨[]⟩⟩ := by
  refine ⟨rfl, rfl, rfl⟩

/-- C8 amended: deserialization succeeds exactly when the body is a
JSON object with exactly one entry under the fixed key
`"Time Series (60min)"` whose value is an object of string-to-string
objects — independent of the interval of the request; in particular the
parameterized label of any other interval is rejected. -/
theorem c8_amended :
    (∀ kvs : List (String × Json),
      (decodeAV (Json.obj kvs)).isSome = true ↔
        ∃ v, kvs.filter (fun kv => kv.1 == "Time Series (60min)")
            = [("Time Series (60min)", v)] ∧ (decodeHelper v).isSome = true) ∧
    (∀ i : String, ¬ i = "60min" →
      decodeAV (Json.obj [("Time Series (" ++ i ++ ")", Json.obj [])]) = none) := by
  have decodeAV_obj : ∀ kvs : List (String × Json),
      decodeAV (Json.obj kvs) =
        match kvs.filter (fun kv => kv.1 == "Time Series (60min)") with
        | [kv] => (decodeHelper kv.2).map (fun h => ⟨h⟩)
        | _ => none := fun kvs => rfl
  constructor
  · intro kvs
    cases hf : kvs.filter (fun kv => kv.1 == "Time Series (60min)") with
    | nil =>
      have hL : decodeAV (Json.obj kvs) = none := by rw [decodeAV_obj, hf]
      refine iff_of_false ?_ ?_
      · rw [hL]
        simp
      · rintro ⟨v, hv, _⟩
        cases hv
    | cons kv rest =>
      obtain ⟨k1, v1⟩ := kv
      cases rest with
      | nil =>
        have hkey : k1 = "Time Series (60min)" := by
          have hm : (k1, v1) ∈ kvs.filter (fun kv => kv.1 == "Time Series (60min)") := by
            rw [hf]
            exact List.mem_singleton.mpr rfl
          exact eq_of_beq (List.mem_filter.mp hm).2
        have hL : decodeAV (Json.obj kvs) = (decodeHelper v1).map (fun h => ⟨h⟩) := by
          rw [decodeAV_obj, hf]
        rw [hL]
        cases hdh : decodeHelper v1 with
        | none =>
          refine iff_of_false ?_ ?_
          · simp
          · rintro ⟨v, hv, hsome⟩
            injection hv with h1 _
            have hv1 : v1 = v := (Prod.mk.injEq _ _ _ _ ▸ h1).2
            rw [← hv1, hdh] at hsome
            cases hsome
        | some ts =>
          refine iff_of_true (by simp) ?_
          exact ⟨v1, by rw [hkey], by rw [hdh]; rfl⟩
      | cons kv2 rest2 =>
        have hL : decodeAV (Json.obj kvs) = none := by rw [decodeAV_obj, hf]
        refine iff_of_false ?_ ?_
        · rw [hL]
          simp
        · rintro ⟨v, hv, _⟩
          injection hv with _ h2
          cases h2
  · intro i hi
    have hpred : (("Time Series (" ++ i ++ ")" : String) == "Time Series (60min)") = false := by
      rw [beq_eq_false_iff_ne]
      intro hc
      exact hi ((timeSeriesKey_eq_iff i).mp hc)
    rw [decodeAV_obj]
    rw [show List.filter (fun kv => kv.1 == "Time Series (60min)")
          [(("Time Series (" ++ i ++ ")" : String), Json.obj [])] = [] from by
        simp [List.filter_cons, hpred]]

/-- C8 witness: the amended claim's rejection clause at the concrete
interval `"5min"`. -/
theorem c8_witness :
    decodeAV (Json.obj [("Time Series (" ++ "5min" ++ ")", Json.obj [])]) = none :=
  c8_amended.2 "5min" (by decide)

end Stocks
